import Mathlib

/-!
Verification of the GEMM access-trace generator (`gemm_simulator.py`) and the
set-associative cache simulator (`cache_simulator.py`).

The Python code is embedded shallowly: the imperative loop nests that append to
`self.tracks` become nested `List.flatMap`/`List.map` expressions producing the
same list in the same order, Python `range` objects become explicit list
constructions, the mutable `CacheSimulator` object becomes a state record
threaded through pure functions, and code paths on which Python raises an
exception return `Except.error`.
-/

/-- One entry of `GEMMSimulator.tracks`: the tuple `(a_pos, b_pos, c_pos)` of
matrix coordinates touched by one scalar multiply-accumulate. -/
structure AccessEvent where
  a_pos : Nat × Nat
  b_pos : Nat × Nat
  c_pos : Nat × Nat
deriving DecidableEq, Repr

/-- Python `range(0, stop, step)` for positive `step`: the multiples of `step`
below `stop`, in increasing order, i.e. `t * step` for `t < ceil(stop / step)`. -/
def pyRange (stop step : Nat) : List Nat :=
  (List.range ((stop + step - 1) / step)).map (fun t => t * step)

/-- Python `range(start, stop)`: consecutive integers from `start` to `stop - 1`. -/
def pyInterval (start stop : Nat) : List Nat :=
  List.range' start (stop - start)

namespace GEMMSimulator

/-- `GEMMSimulator.LOOP_ORDERS`. -/
def LOOP_ORDERS : List String := ["ijk", "ikj", "jik", "jki", "kij", "kji"]

/-- `GEMMSimulator._record_access(i, j, k)`: the event appended to `self.tracks`,
with `a_pos = (i, k)`, `b_pos = (k, j)`, `c_pos = (i, j)`. -/
def record_access (i j k : Nat) : AccessEvent :=
  { a_pos := (i, k), b_pos := (k, j), c_pos := (i, j) }

/-- `GEMMSimulator._inner_loops(i_base, j_base, k_base, bs)`: the events appended
by the fixed-order `ii, jj, kk` nest, each index running over
`range(base, min(base + bs, n))`; the loop body appends
`((ii, kk), (kk, jj), (ii, jj))`. -/
def inner_loops (n i_base j_base k_base bs : Nat) : List AccessEvent :=
  (pyInterval i_base (min (i_base + bs) n)).flatMap fun ii =>
    (pyInterval j_base (min (j_base + bs) n)).flatMap fun jj =>
      (pyInterval k_base (min (k_base + bs) n)).map fun kk =>
        { a_pos := (ii, kk), b_pos := (kk, jj), c_pos := (ii, jj) }

/-- `GEMMSimulator._simulate_blocked(loop_order)` with matrix size `n` and block
size `bs`: three outer loops over `range(0, n, bs)` nested according to
`loop_order`, calling `_inner_loops` per tile origin.  The `elif` chain has no
final `else`, so an unrecognized string leaves `tracks` empty (unreachable after
the validation in `simulate`). -/
def simulate_blocked (n bs : Nat) (loop_order : String) : List AccessEvent :=
  if loop_order = "ijk" then
    (pyRange n bs).flatMap fun i => (pyRange n bs).flatMap fun j =>
      (pyRange n bs).flatMap fun k => inner_loops n i j k bs
  else if loop_order = "ikj" then
    (pyRange n bs).flatMap fun i => (pyRange n bs).flatMap fun k =>
      (pyRange n bs).flatMap fun j => inner_loops n i j k bs
  else if loop_order = "jik" then
    (pyRange n bs).flatMap fun j => (pyRange n bs).flatMap fun i =>
      (pyRange n bs).flatMap fun k => inner_loops n i j k bs
  else if loop_order = "jki" then
    (pyRange n bs).flatMap fun j => (pyRange n bs).flatMap fun k =>
      (pyRange n bs).flatMap fun i => inner_loops n i j k bs
  else if loop_order = "kij" then
    (pyRange n bs).flatMap fun k => (pyRange n bs).flatMap fun i =>
      (pyRange n bs).flatMap fun j => inner_loops n i j k bs
  else if loop_order = "kji" then
    (pyRange n bs).flatMap fun k => (pyRange n bs).flatMap fun j =>
      (pyRange n bs).flatMap fun i => inner_loops n i j k bs
  else []

/-- `GEMMSimulator._simulate_unblocked(loop_order)` with matrix size `n`: three
loops over `range(n)` nested according to `loop_order`, calling `_record_access`
in the body.  As above, an unrecognized string leaves `tracks` empty. -/
def simulate_unblocked (n : Nat) (loop_order : String) : List AccessEvent :=
  if loop_order = "ijk" then
    (List.range n).flatMap fun i => (List.range n).flatMap fun j =>
      (List.range n).map fun k => record_access i j k
  else if loop_order = "ikj" then
    (List.range n).flatMap fun i => (List.range n).flatMap fun k =>
      (List.range n).map fun j => record_access i j k
  else if loop_order = "jik" then
    (List.range n).flatMap fun j => (List.range n).flatMap fun i =>
      (List.range n).map fun k => record_access i j k
  else if loop_order = "jki" then
    (List.range n).flatMap fun j => (List.range n).flatMap fun k =>
      (List.range n).map fun i => record_access i j k
  else if loop_order = "kij" then
    (List.range n).flatMap fun k => (List.range n).flatMap fun i =>
      (List.range n).map fun j => record_access i j k
  else if loop_order = "kji" then
    (List.range n).flatMap fun k => (List.range n).flatMap fun j =>
      (List.range n).map fun i => record_access i j k
  else []

/-- `GEMMSimulator(n, block_size).simulate(loop_order, blocked)`.
`self.block_size = block_size if block_size else n`, i.e. Python truthiness
sends both `None` and `0` to `n`.  The only validation performed is the
`loop_order` membership test, raising `ValueError` (modelled as `.error`).
A negative block size makes every outer `range(0, n, bs)` empty, so the blocked
trace is `[]`; a zero step can only arise when `n = 0`, where Python `range`
itself raises, also modelled as `.error`. -/
def simulate (n : Nat) (block_size : Option Int) (loop_order : String)
    (blocked : Bool) : Except String (List AccessEvent) :=
  let bs : Int := match block_size with
    | none => (n : Int)
    | some b => if b = 0 then (n : Int) else b
  if loop_order ∈ LOOP_ORDERS then
    if blocked then
      if 0 < bs then Except.ok (simulate_blocked n bs.toNat loop_order)
      else if bs = 0 then Except.error "range() arg 3 must not be zero"
      else Except.ok []
    else
      Except.ok (simulate_unblocked n loop_order)
  else
    Except.error "Invalid loop order"

end GEMMSimulator

/-- Spec-side: the Cartesian product `[0,n) x [0,n) x [0,n)` as a list of
`(i, j, k)` triples, each occurring exactly once. -/
def cartesianTriples (n : Nat) : List (Nat × Nat × Nat) :=
  (List.range n).flatMap fun i => (List.range n).flatMap fun j =>
    (List.range n).map fun k => (i, j, k)

/-- The iteration triple `(i, j, k)` underlying an event, read back from its
`c_pos` (which carries `i` and `j`) and `a_pos` (which carries `k`). -/
def underlyingTriple (e : AccessEvent) : Nat × Nat × Nat :=
  (e.c_pos.1, e.c_pos.2, e.a_pos.2)

/-- Spec-side: the indices of one tile axis, expressed as the spec phrases it —
those indices of `[0, n)` lying in `[base, base + tile_size)`. -/
def specAxis (n base bs : Nat) : List Nat :=
  (List.range n).filter fun x => decide (base ≤ x ∧ x < base + bs)

/-- Spec-side reading of the inner nest: the three variables in the fixed
relative order `i` outermost, then `j`, then `k` innermost, one event per
`(i, j, k)` combination within the tile. -/
def inner_spec (n i_base j_base k_base bs : Nat) : List AccessEvent :=
  (specAxis n i_base bs).flatMap fun i =>
    (specAxis n j_base bs).flatMap fun j =>
      (specAxis n k_base bs).map fun k =>
        GEMMSimulator.record_access i j k

/-- The tile origins visited by the outer loops of `_simulate_blocked`, in
visit order, as `(i_base, j_base, k_base)` triples. -/
def outer_origins (n bs : Nat) (loop_order : String) : List (Nat × Nat × Nat) :=
  if loop_order = "ijk" then
    (pyRange n bs).flatMap fun i => (pyRange n bs).flatMap fun j =>
      (pyRange n bs).map fun k => (i, j, k)
  else if loop_order = "ikj" then
    (pyRange n bs).flatMap fun i => (pyRange n bs).flatMap fun k =>
      (pyRange n bs).map fun j => (i, j, k)
  else if loop_order = "jik" then
    (pyRange n bs).flatMap fun j => (pyRange n bs).flatMap fun i =>
      (pyRange n bs).map fun k => (i, j, k)
  else if loop_order = "jki" then
    (pyRange n bs).flatMap fun j => (pyRange n bs).flatMap fun k =>
      (pyRange n bs).map fun i => (i, j, k)
  else if loop_order = "kij" then
    (pyRange n bs).flatMap fun k => (pyRange n bs).flatMap fun i =>
      (pyRange n bs).map fun j => (i, j, k)
  else if loop_order = "kji" then
    (pyRange n bs).flatMap fun k => (pyRange n bs).flatMap fun j =>
      (pyRange n bs).map fun i => (i, j, k)
  else []

/-- The mutable state of a `CacheSimulator` object.  Each cache set is a list
of tags in recency order, least-recently-used first (mirroring insertion order
of the Python `OrderedDict`). -/
structure CacheSimulator where
  cache_size : Nat
  line_size : Nat
  associativity : Nat
  element_size : Nat
  num_lines : Nat
  num_sets : Nat
  sets : Nat → List Nat
  hits : Nat
  misses : Nat
  accesses : Nat
  hit_rate_history : List ℚ

namespace CacheSimulator

/-- `CacheSimulator.__init__`: no geometry validation is performed; the only
failures are Python `ZeroDivisionError`s from `cache_size // line_size` and
`num_lines // associativity` (modelled as `.error`).  Otherwise the derived
quantities are floor divisions and every set starts empty. -/
def init (cache_size line_size associativity element_size : Nat) :
    Except String CacheSimulator :=
  if line_size = 0 then Except.error "ZeroDivisionError"
  else if associativity = 0 then Except.error "ZeroDivisionError"
  else Except.ok
    { cache_size := cache_size, line_size := line_size,
      associativity := associativity, element_size := element_size,
      num_lines := cache_size / line_size,
      num_sets := cache_size / line_size / associativity,
      sets := fun _ => [], hits := 0, misses := 0, accesses := 0,
      hit_rate_history := [] }

/-- `CacheSimulator.reset()`. -/
def reset (self : CacheSimulator) : CacheSimulator :=
  { self with sets := fun _ => [], hits := 0, misses := 0, accesses := 0,
              hit_rate_history := [] }

/-- `CacheSimulator._get_address(matrix_base, row, col, n)`: row-major layout,
`matrix_base + (row * n + col) * element_size`.  (`element_size` is the field
`self.element_size`, passed explicitly here.) -/
def get_address (element_size matrix_base row col n : Nat) : Nat :=
  matrix_base + (row * n + col) * element_size

/-- `CacheSimulator._parse_address(address)`: `(tag, set_index, block_offset)`. -/
def parse_address (self : CacheSimulator) (address : Nat) : Nat × Nat × Nat :=
  (address / (self.line_size * self.num_sets),
   address / self.line_size % self.num_sets,
   address % self.line_size)

/-- `CacheSimulator.get_hit_rate()`. -/
def get_hit_rate (self : CacheSimulator) : ℚ :=
  if self.accesses = 0 then 0 else (self.hits : ℚ) / (self.accesses : ℚ) * 100

/-- The trailing `if self.accesses % 100 == 0` sampling step of `access`. -/
def sample_history (self : CacheSimulator) : CacheSimulator :=
  if self.accesses % 100 = 0 then
    { self with hit_rate_history := self.hit_rate_history ++ [get_hit_rate self] }
  else self

/-- `CacheSimulator.access(address)`, returning the updated state and the hit
flag.  On a hit the tag is moved to the most-recently-used end
(`move_to_end`); on a miss the tag is appended and, if the set now exceeds
`associativity`, the least-recently-used front entry is dropped
(`popitem(last=False)`). -/
def access (self : CacheSimulator) (address : Nat) : CacheSimulator × Bool :=
  let tag := (parse_address self address).1
  let set_index := (parse_address self address).2.1
  let s := self.sets set_index
  if tag ∈ s then
    (sample_history
      { self with sets := Function.update self.sets set_index (s.erase tag ++ [tag]),
                  hits := self.hits + 1, accesses := self.accesses + 1 },
     true)
  else
    let s1 := s ++ [tag]
    let s2 := if self.associativity < s1.length then s1.tail else s1
    (sample_history
      { self with sets := Function.update self.sets set_index s2,
                  misses := self.misses + 1, accesses := self.accesses + 1 },
     false)

/-- `access` keeping only the state (the Python call sites of
`simulate_accesses` discard the returned flag). -/
def access_st (self : CacheSimulator) (address : Nat) : CacheSimulator :=
  (access self address).1

/-- The `matrix_bases` dictionary. -/
structure MatrixBases where
  A : Nat
  B : Nat
  C : Nat
deriving DecidableEq, Repr

/-- The default base addresses used when `matrix_bases is None`. -/
def default_bases : MatrixBases :=
  { A := 0x10000, B := 0x20000, C := 0x30000 }

/-- `CacheSimulator.simulate_accesses(tracks, matrix_size, matrix_bases)`:
reset, then for every event, in order, access A[a_pos], B[b_pos] and twice
C[c_pos]. -/
def simulate_accesses (self : CacheSimulator) (tracks : List AccessEvent)
    (matrix_size : Nat) (matrix_bases : Option MatrixBases) : CacheSimulator :=
  let mb := match matrix_bases with
    | none => default_bases
    | some b => b
  tracks.foldl (fun st e =>
    let st1 := access_st st (get_address st.element_size mb.A e.a_pos.1 e.a_pos.2 matrix_size)
    let st2 := access_st st1 (get_address st1.element_size mb.B e.b_pos.1 e.b_pos.2 matrix_size)
    let st3 := access_st st2 (get_address st2.element_size mb.C e.c_pos.1 e.c_pos.2 matrix_size)
    access_st st3 (get_address st3.element_size mb.C e.c_pos.1 e.c_pos.2 matrix_size))
    (reset self)

/-- The fields of the dictionary returned by `get_statistics` that the claims
refer to. -/
structure Statistics where
  total_accesses : Nat
  hits : Nat
  misses : Nat
  hit_rate : ℚ
  miss_rate : ℚ
deriving Repr

/-- `CacheSimulator.get_statistics()`. -/
def get_statistics (self : CacheSimulator) : Statistics :=
  { total_accesses := self.accesses, hits := self.hits, misses := self.misses,
    hit_rate := get_hit_rate self, miss_rate := 100 - get_hit_rate self }

end CacheSimulator

/-- Spec-side: the flat address stream that §4.2 prescribes for replaying a
trace — per event, the four addresses A read, B read, C read, C read. -/
def expandedAddresses (element_size : Nat) (mb : CacheSimulator.MatrixBases)
    (n : Nat) (tracks : List AccessEvent) : List Nat :=
  tracks.flatMap fun e =>
    [CacheSimulator.get_address element_size mb.A e.a_pos.1 e.a_pos.2 n,
     CacheSimulator.get_address element_size mb.B e.b_pos.1 e.b_pos.2 n,
     CacheSimulator.get_address element_size mb.C e.c_pos.1 e.c_pos.2 n,
     CacheSimulator.get_address element_size mb.C e.c_pos.1 e.c_pos.2 n]

/-- The indices visited along one axis by blocked iteration: the tile origins
in stride order, each expanded into its clipped tile. -/
def tiledAxis (n bs : Nat) : List Nat :=
  (pyRange n bs).flatMap fun b => pyInterval b (min (b + bs) n)

/-- The hit/miss flags returned by a sequence of `access` calls, in order. -/
def CacheSimulator.access_flags (c : CacheSimulator) : List Nat → List Bool
  | [] => []
  | a :: rest => (CacheSimulator.access c a).2 ::
      CacheSimulator.access_flags (CacheSimulator.access c a).1 rest

/-- A concrete 2-way, 4-set cache state as produced by
`CacheSimulator(512, 64, 2, 8)`, used to instantiate the LRU example. -/
def lruTestCache : CacheSimulator :=
  ⟨512, 64, 2, 8, 8, 4, fun _ => [], 0, 0, 0, []⟩


/-! ### Basic facts about the Python `range` embeddings -/

theorem mem_pyInterval {a b x : Nat} : x ∈ pyInterval a b ↔ a ≤ x ∧ x < b := by
  unfold pyInterval
  rw [List.mem_range'_1]
  omega

theorem nodup_pyInterval (a b : Nat) : (pyInterval a b).Nodup :=
  List.nodup_range' a (b - a)

theorem mem_pyRange {n bs b : Nat} :
    b ∈ pyRange n bs ↔ ∃ t, t < (n + bs - 1) / bs ∧ b = t * bs := by
  unfold pyRange
  simp only [List.mem_map, List.mem_range]
  constructor
  · rintro ⟨t, ht, rfl⟩; exact ⟨t, ht, rfl⟩
  · rintro ⟨t, ht, rfl⟩; exact ⟨t, ht, rfl⟩

/-! ### Permutation toolkit: reordering commuting nested loops -/

theorem perm_flatMap_swap {α β γ : Type} (l1 : List α) (l2 : List β)
    (g : α → β → List γ) :
    List.Perm (l1.flatMap fun x => l2.flatMap fun y => g x y)
      (l2.flatMap fun y => l1.flatMap fun x => g x y) := by
  rw [← Multiset.coe_eq_coe]
  simp only [← Multiset.coe_bind]
  exact Multiset.bind_bind _ _

theorem perm_flatMap_map_swap {α β γ : Type} (l1 : List α) (l2 : List β)
    (f : α → β → γ) :
    List.Perm (l1.flatMap fun x => l2.map fun y => f x y)
      (l2.flatMap fun y => l1.map fun x => f x y) := by
  rw [← Multiset.coe_eq_coe]
  simp only [← Multiset.coe_bind, ← Multiset.map_coe]
  exact Multiset.bind_map_comm _ _

theorem perm_flatMap_congr {α β : Type} (l : List α) {f g : α → List β}
    (h : ∀ a ∈ l, List.Perm (f a) (g a)) : List.Perm (l.flatMap f) (l.flatMap g) := by
  rw [← Multiset.coe_eq_coe]
  simp only [← Multiset.coe_bind]
  exact Multiset.bind_congr fun a ha =>
    Multiset.coe_eq_coe.mpr (h a (Multiset.mem_coe.mp ha))

theorem perm_flatMap_of_perm {α β : Type} {l1 l2 : List α} (h : List.Perm l1 l2)
    (f : α → List β) : List.Perm (l1.flatMap f) (l2.flatMap f) := by
  rw [← Multiset.coe_eq_coe]
  simp only [← Multiset.coe_bind]
  rw [Multiset.coe_eq_coe.mpr h]

/-! ### The tiled decomposition of one axis -/

theorem mem_tiledAxis {n bs x : Nat} (hbs : 1 ≤ bs) :
    x ∈ tiledAxis n bs ↔ x < n := by
  unfold tiledAxis
  rw [List.mem_flatMap]
  constructor
  · rintro ⟨b, _, hx⟩
    rw [mem_pyInterval] at hx
    omega
  · intro hx
    refine ⟨x / bs * bs, mem_pyRange.mpr ⟨x / bs, ?_, rfl⟩, ?_⟩
    · have h1 : x / bs + 1 = (x + bs) / bs := (Nat.add_div_right x hbs).symm
      have h2 : (x + bs) / bs ≤ (n + bs - 1) / bs :=
        Nat.div_le_div_right (by omega)
      omega
    · have h3 : x / bs * bs ≤ x := Nat.div_mul_le_self x bs
      have h4 : x < (x / bs + 1) * bs :=
        (Nat.div_lt_iff_lt_mul hbs).mp (Nat.lt_succ_self (x / bs))
      rw [add_mul, one_mul] at h4
      rw [mem_pyInterval]
      omega

theorem nodup_tiledAxis (n bs : Nat) : (tiledAxis n bs).Nodup := by
  unfold tiledAxis pyRange
  rw [List.flatMap_map]
  rw [List.nodup_flatMap]
  refine ⟨fun t _ => nodup_pyInterval _ _, ?_⟩
  refine (List.pairwise_lt_range _).imp ?_
  intro t t' hlt
  intro x hx hx'
  rw [mem_pyInterval] at hx hx'
  have hmul : (t + 1) * bs ≤ t' * bs := Nat.mul_le_mul_right bs (by omega)
  rw [add_mul, one_mul] at hmul
  omega

theorem tiledAxis_perm_range {n bs : Nat} (hbs : 1 ≤ bs) :
    List.Perm (tiledAxis n bs) (List.range n) := by
  refine List.perm_of_nodup_nodup_toFinset_eq (nodup_tiledAxis n bs)
    (List.nodup_range (n := n)) ?_
  ext x
  simp only [List.mem_toFinset, mem_tiledAxis hbs, List.mem_range]

/-! ### Branch equations for the six loop orders -/

namespace GEMMSimulator

theorem ub_ijk (n : Nat) : simulate_unblocked n "ijk" =
    ((List.range n).flatMap fun i => (List.range n).flatMap fun j =>
      (List.range n).map fun k => record_access i j k) := rfl

theorem ub_ikj (n : Nat) : simulate_unblocked n "ikj" =
    ((List.range n).flatMap fun i => (List.range n).flatMap fun k =>
      (List.range n).map fun j => record_access i j k) := rfl

theorem ub_jik (n : Nat) : simulate_unblocked n "jik" =
    ((List.range n).flatMap fun j => (List.range n).flatMap fun i =>
      (List.range n).map fun k => record_access i j k) := rfl

theorem ub_jki (n : Nat) : simulate_unblocked n "jki" =
    ((List.range n).flatMap fun j => (List.range n).flatMap fun k =>
      (List.range n).map fun i => record_access i j k) := rfl

theorem ub_kij (n : Nat) : simulate_unblocked n "kij" =
    ((List.range n).flatMap fun k => (List.range n).flatMap fun i =>
      (List.range n).map fun j => record_access i j k) := rfl

theorem ub_kji (n : Nat) : simulate_unblocked n "kji" =
    ((List.range n).flatMap fun k => (List.range n).flatMap fun j =>
      (List.range n).map fun i => record_access i j k) := rfl

theorem bl_ijk (n bs : Nat) : simulate_blocked n bs "ijk" =
    ((pyRange n bs).flatMap fun i => (pyRange n bs).flatMap fun j =>
      (pyRange n bs).flatMap fun k => inner_loops n i j k bs) := rfl

theorem bl_ikj (n bs : Nat) : simulate_blocked n bs "ikj" =
    ((pyRange n bs).flatMap fun i => (pyRange n bs).flatMap fun k =>
      (pyRange n bs).flatMap fun j => inner_loops n i j k bs) := rfl

theorem bl_jik (n bs : Nat) : simulate_blocked n bs "jik" =
    ((pyRange n bs).flatMap fun j => (pyRange n bs).flatMap fun i =>
      (pyRange n bs).flatMap fun k => inner_loops n i j k bs) := rfl

theorem bl_jki (n bs : Nat) : simulate_blocked n bs "jki" =
    ((pyRange n bs).flatMap fun j => (pyRange n bs).flatMap fun k =>
      (pyRange n bs).flatMap fun i => inner_loops n i j k bs) := rfl

theorem bl_kij (n bs : Nat) : simulate_blocked n bs "kij" =
    ((pyRange n bs).flatMap fun k => (pyRange n bs).flatMap fun i =>
      (pyRange n bs).flatMap fun j => inner_loops n i j k bs) := rfl

theorem bl_kji (n bs : Nat) : simulate_blocked n bs "kji" =
    ((pyRange n bs).flatMap fun k => (pyRange n bs).flatMap fun j =>
      (pyRange n bs).flatMap fun i => inner_loops n i j k bs) := rfl

theorem inner_loops_eq (n i_base j_base k_base bs : Nat) :
    inner_loops n i_base j_base k_base bs =
      ((pyInterval i_base (min (i_base + bs) n)).flatMap fun ii =>
        (pyInterval j_base (min (j_base + bs) n)).flatMap fun jj =>
          (pyInterval k_base (min (k_base + bs) n)).map fun kk =>
            record_access ii jj kk) := rfl

end GEMMSimulator

/-! ### Any unblocked order is a permutation of the unblocked ijk trace -/

theorem unblocked_perm_ijk (n : Nat) (lo : String)
    (hlo : lo ∈ GEMMSimulator.LOOP_ORDERS) :
    List.Perm (GEMMSimulator.simulate_unblocked n lo)
      (GEMMSimulator.simulate_unblocked n "ijk") := by
  simp only [GEMMSimulator.LOOP_ORDERS, List.mem_cons, List.not_mem_nil,
    or_false] at hlo
  rcases hlo with rfl | rfl | rfl | rfl | rfl | rfl
  · exact List.Perm.refl _
  · rw [GEMMSimulator.ub_ikj, GEMMSimulator.ub_ijk]
    exact perm_flatMap_congr _ fun i _ =>
      perm_flatMap_map_swap (List.range n) (List.range n)
        (fun k j => GEMMSimulator.record_access i j k)
  · rw [GEMMSimulator.ub_jik, GEMMSimulator.ub_ijk]
    exact perm_flatMap_swap (List.range n) (List.range n)
      (fun j i => (List.range n).map fun k => GEMMSimulator.record_access i j k)
  · rw [GEMMSimulator.ub_jki, GEMMSimulator.ub_ijk]
    refine List.Perm.trans ?_ (perm_flatMap_swap (List.range n) (List.range n)
      (fun j i => (List.range n).map fun k => GEMMSimulator.record_access i j k))
    exact perm_flatMap_congr _ fun j _ =>
      perm_flatMap_map_swap (List.range n) (List.range n)
        (fun k i => GEMMSimulator.record_access i j k)
  · rw [GEMMSimulator.ub_kij, GEMMSimulator.ub_ijk]
    refine List.Perm.trans (perm_flatMap_swap (List.range n) (List.range n)
      (fun k i => (List.range n).map fun j => GEMMSimulator.record_access i j k)) ?_
    exact perm_flatMap_congr _ fun i _ =>
      perm_flatMap_map_swap (List.range n) (List.range n)
        (fun k j => GEMMSimulator.record_access i j k)
  · rw [GEMMSimulator.ub_kji, GEMMSimulator.ub_ijk]
    refine List.Perm.trans (perm_flatMap_congr _ fun k _ =>
      perm_flatMap_map_swap (List.range n) (List.range n)
        (fun j i => GEMMSimulator.record_access i j k)) ?_
    refine List.Perm.trans (perm_flatMap_swap (List.range n) (List.range n)
      (fun k i => (List.range n).map fun j => GEMMSimulator.record_access i j k)) ?_
    exact perm_flatMap_congr _ fun i _ =>
      perm_flatMap_map_swap (List.range n) (List.range n)
        (fun k j => GEMMSimulator.record_access i j k)

/-! ### Collapsing a tiled axis back to a plain range -/

theorem tiled_collapse {γ : Type} (n bs : Nat) (hbs : 1 ≤ bs)
    (g : Nat → List γ) :
    List.Perm
      ((pyRange n bs).flatMap fun b =>
        (pyInterval b (min (b + bs) n)).flatMap fun i => g i)
      ((List.range n).flatMap fun i => g i) := by
  rw [← List.flatMap_assoc]
  exact perm_flatMap_of_perm (tiledAxis_perm_range hbs) g

theorem tiled_collapse_map {γ : Type} (n bs : Nat) (hbs : 1 ≤ bs)
    (f : Nat → γ) :
    List.Perm
      ((pyRange n bs).flatMap fun b =>
        (pyInterval b (min (b + bs) n)).map f)
      ((List.range n).map f) := by
  rw [← List.map_flatMap]
  exact (tiledAxis_perm_range hbs).map f

/-! ### Any blocked order is a permutation of the blocked ijk trace -/

theorem blocked_perm_blocked_ijk (n bs : Nat) (lo : String)
    (hlo : lo ∈ GEMMSimulator.LOOP_ORDERS) :
    List.Perm (GEMMSimulator.simulate_blocked n bs lo)
      (GEMMSimulator.simulate_blocked n bs "ijk") := by
  simp only [GEMMSimulator.LOOP_ORDERS, List.mem_cons, List.not_mem_nil,
    or_false] at hlo
  rcases hlo with rfl | rfl | rfl | rfl | rfl | rfl
  · exact List.Perm.refl _
  · rw [GEMMSimulator.bl_ikj, GEMMSimulator.bl_ijk]
    exact perm_flatMap_congr _ fun i _ =>
      perm_flatMap_swap (pyRange n bs) (pyRange n bs)
        (fun k j => GEMMSimulator.inner_loops n i j k bs)
  · rw [GEMMSimulator.bl_jik, GEMMSimulator.bl_ijk]
    exact perm_flatMap_swap (pyRange n bs) (pyRange n bs)
      (fun j i => (pyRange n bs).flatMap fun k =>
        GEMMSimulator.inner_loops n i j k bs)
  · rw [GEMMSimulator.bl_jki, GEMMSimulator.bl_ijk]
    refine List.Perm.trans ?_ (perm_flatMap_swap (pyRange n bs) (pyRange n bs)
      (fun j i => (pyRange n bs).flatMap fun k =>
        GEMMSimulator.inner_loops n i j k bs))
    exact perm_flatMap_congr _ fun j _ =>
      perm_flatMap_swap (pyRange n bs) (pyRange n bs)
        (fun k i => GEMMSimulator.inner_loops n i j k bs)
  · rw [GEMMSimulator.bl_kij, GEMMSimulator.bl_ijk]
    refine List.Perm.trans (perm_flatMap_swap (pyRange n bs) (pyRange n bs)
      (fun k i => (pyRange n bs).flatMap fun j =>
        GEMMSimulator.inner_loops n i j k bs)) ?_
    exact perm_flatMap_congr _ fun i _ =>
      perm_flatMap_swap (pyRange n bs) (pyRange n bs)
        (fun k j => GEMMSimulator.inner_loops n i j k bs)
  · rw [GEMMSimulator.bl_kji, GEMMSimulator.bl_ijk]
    refine List.Perm.trans (perm_flatMap_congr _ fun k _ =>
      perm_flatMap_swap (pyRange n bs) (pyRange n bs)
        (fun j i => GEMMSimulator.inner_loops n i j k bs)) ?_
    refine List.Perm.trans (perm_flatMap_swap (pyRange n bs) (pyRange n bs)
      (fun k i => (pyRange n bs).flatMap fun j =>
        GEMMSimulator.inner_loops n i j k bs)) ?_
    exact perm_flatMap_congr _ fun i _ =>
      perm_flatMap_swap (pyRange n bs) (pyRange n bs)
        (fun k j => GEMMSimulator.inner_loops n i j k bs)

/-! ### The blocked ijk trace is a permutation of the unblocked ijk trace -/

theorem blocked_ijk_perm_unblocked (n bs : Nat) (hbs : 1 ≤ bs) :
    List.Perm (GEMMSimulator.simulate_blocked n bs "ijk")
      (GEMMSimulator.simulate_unblocked n "ijk") := by
  rw [GEMMSimulator.bl_ijk, GEMMSimulator.ub_ijk]
  simp only [GEMMSimulator.inner_loops_eq]
  have hA : List.Perm
      ((pyRange n bs).flatMap fun bi => (pyRange n bs).flatMap fun bj =>
        (pyRange n bs).flatMap fun bk =>
          (pyInterval bi (min (bi + bs) n)).flatMap fun ii =>
            (pyInterval bj (min (bj + bs) n)).flatMap fun jj =>
              (pyInterval bk (min (bk + bs) n)).map fun kk =>
                GEMMSimulator.record_access ii jj kk)
      ((pyRange n bs).flatMap fun bi => (pyRange n bs).flatMap fun bj =>
        (pyInterval bi (min (bi + bs) n)).flatMap fun ii =>
          (pyRange n bs).flatMap fun bk =>
            (pyInterval bj (min (bj + bs) n)).flatMap fun jj =>
              (pyInterval bk (min (bk + bs) n)).map fun kk =>
                GEMMSimulator.record_access ii jj kk) :=
    perm_flatMap_congr _ fun bi _ => perm_flatMap_congr _ fun bj _ =>
      perm_flatMap_swap _ _ _
  have hB : List.Perm
      ((pyRange n bs).flatMap fun bi => (pyRange n bs).flatMap fun bj =>
        (pyInterval bi (min (bi + bs) n)).flatMap fun ii =>
          (pyRange n bs).flatMap fun bk =>
            (pyInterval bj (min (bj + bs) n)).flatMap fun jj =>
              (pyInterval bk (min (bk + bs) n)).map fun kk =>
                GEMMSimulator.record_access ii jj kk)
      ((pyRange n bs).flatMap fun bi =>
        (pyInterval bi (min (bi + bs) n)).flatMap fun ii =>
          (pyRange n bs).flatMap fun bj => (pyRange n bs).flatMap fun bk =>
            (pyInterval bj (min (bj + bs) n)).flatMap fun jj =>
              (pyInterval bk (min (bk + bs) n)).map fun kk =>
                GEMMSimulator.record_access ii jj kk) :=
    perm_flatMap_congr _ fun bi _ => perm_flatMap_swap _ _ _
  have hC : List.Perm
      ((pyRange n bs).flatMap fun bi =>
        (pyInterval bi (min (bi + bs) n)).flatMap fun ii =>
          (pyRange n bs).flatMap fun bj => (pyRange n bs).flatMap fun bk =>
            (pyInterval bj (min (bj + bs) n)).flatMap fun jj =>
              (pyInterval bk (min (bk + bs) n)).map fun kk =>
                GEMMSimulator.record_access ii jj kk)
      ((pyRange n bs).flatMap fun bi =>
        (pyInterval bi (min (bi + bs) n)).flatMap fun ii =>
          (pyRange n bs).flatMap fun bj =>
            (pyInterval bj (min (bj + bs) n)).flatMap fun jj =>
              (pyRange n bs).flatMap fun bk =>
                (pyInterval bk (min (bk + bs) n)).map fun kk =>
                  GEMMSimulator.record_access ii jj kk) :=
    perm_flatMap_congr _ fun bi _ => perm_flatMap_congr _ fun ii _ =>
      perm_flatMap_congr _ fun bj _ => perm_flatMap_swap _ _ _
  have hD : List.Perm
      ((pyRange n bs).flatMap fun bi =>
        (pyInterval bi (min (bi + bs) n)).flatMap fun ii =>
          (pyRange n bs).flatMap fun bj =>
            (pyInterval bj (min (bj + bs) n)).flatMap fun jj =>
              (pyRange n bs).flatMap fun bk =>
                (pyInterval bk (min (bk + bs) n)).map fun kk =>
                  GEMMSimulator.record_access ii jj kk)
      ((pyRange n bs).flatMap fun bi =>
        (pyInterval bi (min (bi + bs) n)).flatMap fun ii =>
          (pyRange n bs).flatMap fun bj =>
            (pyInterval bj (min (bj + bs) n)).flatMap fun jj =>
              (List.range n).map fun kk =>
                GEMMSimulator.record_access ii jj kk) :=
    perm_flatMap_congr _ fun bi _ => perm_flatMap_congr _ fun ii _ =>
      perm_flatMap_congr _ fun bj _ => perm_flatMap_congr _ fun jj _ =>
        tiled_collapse_map n bs hbs _
  have hE : List.Perm
      ((pyRange n bs).flatMap fun bi =>
        (pyInterval bi (min (bi + bs) n)).flatMap fun ii =>
          (pyRange n bs).flatMap fun bj =>
            (pyInterval bj (min (bj + bs) n)).flatMap fun jj =>
              (List.range n).map fun kk =>
                GEMMSimulator.record_access ii jj kk)
      ((pyRange n bs).flatMap fun bi =>
        (pyInterval bi (min (bi + bs) n)).flatMap fun ii =>
          (List.range n).flatMap fun jj =>
            (List.range n).map fun kk =>
              GEMMSimulator.record_access ii jj kk) :=
    perm_flatMap_congr _ fun bi _ => perm_flatMap_congr _ fun ii _ =>
      tiled_collapse n bs hbs _
  have hF : List.Perm
      ((pyRange n bs).flatMap fun bi =>
        (pyInterval bi (min (bi + bs) n)).flatMap fun ii =>
          (List.range n).flatMap fun jj =>
            (List.range n).map fun kk =>
              GEMMSimulator.record_access ii jj kk)
      ((List.range n).flatMap fun ii =>
        (List.range n).flatMap fun jj =>
          (List.range n).map fun kk =>
            GEMMSimulator.record_access ii jj kk) :=
    tiled_collapse n bs hbs _
  exact hA.trans (hB.trans (hC.trans (hD.trans (hE.trans hF))))

/-! ### The canonical trace -/

theorem unblocked_ijk_eq_map_cartesian (n : Nat) :
    GEMMSimulator.simulate_unblocked n "ijk" =
      (cartesianTriples n).map fun t =>
        GEMMSimulator.record_access t.1 t.2.1 t.2.2 := by
  rw [GEMMSimulator.ub_ijk]
  unfold cartesianTriples
  simp only [List.map_flatMap, List.map_map]
  rfl

theorem trace_perm_canonical (n bs : Nat) (hbs : 1 ≤ bs) (lo : String)
    (hlo : lo ∈ GEMMSimulator.LOOP_ORDERS) (blocked : Bool) :
    List.Perm
      (if blocked then GEMMSimulator.simulate_blocked n bs lo
       else GEMMSimulator.simulate_unblocked n lo)
      ((cartesianTriples n).map fun t =>
        GEMMSimulator.record_access t.1 t.2.1 t.2.2) := by
  rw [← unblocked_ijk_eq_map_cartesian]
  cases blocked
  · simpa using unblocked_perm_ijk n lo hlo
  · simpa using (blocked_perm_blocked_ijk n bs lo hlo).trans
      (blocked_ijk_perm_unblocked n bs hbs)

theorem length_cartesianTriples (n : Nat) :
    (cartesianTriples n).length = n ^ 3 := by
  unfold cartesianTriples
  simp [List.length_flatMap, Function.comp_def]
  ring

theorem map_underlying_canonical (n : Nat) :
    ((cartesianTriples n).map fun t =>
      GEMMSimulator.record_access t.1 t.2.1 t.2.2).map underlyingTriple =
      cartesianTriples n := by
  rw [List.map_map]
  have h : (underlyingTriple ∘ fun t : Nat × Nat × Nat =>
      GEMMSimulator.record_access t.1 t.2.1 t.2.2) = id := by
    funext t
    rfl
  rw [h, List.map_id]

theorem mem_trace_form {n : Nat} {e : AccessEvent} {l : List AccessEvent}
    (hl : List.Perm l ((cartesianTriples n).map fun t =>
      GEMMSimulator.record_access t.1 t.2.1 t.2.2))
    (he : e ∈ l) :
    e = GEMMSimulator.record_access (underlyingTriple e).1
      (underlyingTriple e).2.1 (underlyingTriple e).2.2 := by
  have hm := hl.mem_iff.mp he
  rw [List.mem_map] at hm
  obtain ⟨t, _, rfl⟩ := hm
  rfl

/-- C1: for every matrix size `n ≥ 1`, every loop order among the six, and both
blocked (any tile size ≥ 1) and unblocked generation, every `AccessEvent` in
the produced trace has the form `a_pos = (i,k)`, `b_pos = (k,j)`,
`c_pos = (i,j)` for its underlying iteration triple `(i,j,k)`, and the multiset
of underlying triples over the whole trace is exactly the Cartesian product
`[0,n) × [0,n) × [0,n)`, each triple once — identical for all 6 × 2 generation
modes, which therefore differ only in emission order. -/
theorem claim_C1_coordinate_and_multiset_invariant (n bs : Nat) (hn : 1 ≤ n)
    (hbs : 1 ≤ bs) (lo : String) (hlo : lo ∈ GEMMSimulator.LOOP_ORDERS)
    (blocked : Bool) :
    (∀ e ∈ (if blocked then GEMMSimulator.simulate_blocked n bs lo
            else GEMMSimulator.simulate_unblocked n lo),
        e = GEMMSimulator.record_access (underlyingTriple e).1
          (underlyingTriple e).2.1 (underlyingTriple e).2.2) ∧
    ((↑((if blocked then GEMMSimulator.simulate_blocked n bs lo
         else GEMMSimulator.simulate_unblocked n lo).map underlyingTriple) :
        Multiset (Nat × Nat × Nat)) = ↑(cartesianTriples n)) := by
  have hperm := trace_perm_canonical n bs hbs lo hlo blocked
  refine ⟨fun e he => mem_trace_form hperm he, ?_⟩
  have h2 := hperm.map underlyingTriple
  rw [map_underlying_canonical n] at h2
  exact Multiset.coe_eq_coe.mpr h2

/-- Witness for C1 at `n = 1`, `bs = 1`, loop order `"ijk"`, blocked mode. -/
theorem claim_C1_witness :
    1 ≤ 1 ∧ "ijk" ∈ GEMMSimulator.LOOP_ORDERS ∧
    ((∀ e ∈ (if true then GEMMSimulator.simulate_blocked 1 1 "ijk"
             else GEMMSimulator.simulate_unblocked 1 "ijk"),
        e = GEMMSimulator.record_access (underlyingTriple e).1
          (underlyingTriple e).2.1 (underlyingTriple e).2.2) ∧
     ((↑((if true then GEMMSimulator.simulate_blocked 1 1 "ijk"
          else GEMMSimulator.simulate_unblocked 1 "ijk").map underlyingTriple) :
         Multiset (Nat × Nat × Nat)) = ↑(cartesianTriples 1))) :=
  ⟨le_refl 1, by decide,
    claim_C1_coordinate_and_multiset_invariant 1 1 (le_refl 1) (le_refl 1)
      "ijk" (by decide) true⟩

/-- C2: for every `n ≥ 1`, every loop order, and both blocking modes — with any
tile size ≥ 1, in particular tile sizes not dividing `n` — the trace length is
exactly `n ^ 3`. -/
theorem claim_C2_trace_length (n bs : Nat) (hn : 1 ≤ n) (hbs : 1 ≤ bs)
    (lo : String) (hlo : lo ∈ GEMMSimulator.LOOP_ORDERS) (blocked : Bool) :
    (if blocked then GEMMSimulator.simulate_blocked n bs lo
     else GEMMSimulator.simulate_unblocked n lo).length = n ^ 3 := by
  rw [(trace_perm_canonical n bs hbs lo hlo blocked).length_eq,
    List.length_map, length_cartesianTriples]

/-- Witness for C2 at the boundary-tiling example `n = 5`, `tile_size = 3`,
loop order `"kji"`, blocked mode: the trace has exactly 125 events. -/
theorem claim_C2_witness :
    1 ≤ 5 ∧ 1 ≤ 3 ∧ "kji" ∈ GEMMSimulator.LOOP_ORDERS ∧
    (if true then GEMMSimulator.simulate_blocked 5 3 "kji"
     else GEMMSimulator.simulate_unblocked 5 "kji").length = 5 ^ 3 :=
  ⟨by omega, by omega, by decide,
    claim_C2_trace_length 5 3 (by omega) (by omega) "kji" (by decide) true⟩

/-! ### The inner nest and the outer tile origins -/

theorem oo_ijk (n bs : Nat) : outer_origins n bs "ijk" =
    ((pyRange n bs).flatMap fun i => (pyRange n bs).flatMap fun j =>
      (pyRange n bs).map fun k => (i, j, k)) := rfl

theorem oo_ikj (n bs : Nat) : outer_origins n bs "ikj" =
    ((pyRange n bs).flatMap fun i => (pyRange n bs).flatMap fun k =>
      (pyRange n bs).map fun j => (i, j, k)) := rfl

theorem oo_jik (n bs : Nat) : outer_origins n bs "jik" =
    ((pyRange n bs).flatMap fun j => (pyRange n bs).flatMap fun i =>
      (pyRange n bs).map fun k => (i, j, k)) := rfl

theorem oo_jki (n bs : Nat) : outer_origins n bs "jki" =
    ((pyRange n bs).flatMap fun j => (pyRange n bs).flatMap fun k =>
      (pyRange n bs).map fun i => (i, j, k)) := rfl

theorem oo_kij (n bs : Nat) : outer_origins n bs "kij" =
    ((pyRange n bs).flatMap fun k => (pyRange n bs).flatMap fun i =>
      (pyRange n bs).map fun j => (i, j, k)) := rfl

theorem oo_kji (n bs : Nat) : outer_origins n bs "kji" =
    ((pyRange n bs).flatMap fun k => (pyRange n bs).flatMap fun j =>
      (pyRange n bs).map fun i => (i, j, k)) := rfl

theorem specAxis_eq_pyInterval (n base bs : Nat) :
    specAxis n base bs = pyInterval base (min (base + bs) n) := by
  have hperm : List.Perm (specAxis n base bs)
      (pyInterval base (min (base + bs) n)) := by
    refine List.perm_of_nodup_nodup_toFinset_eq
      ((List.nodup_range n).filter _) (nodup_pyInterval _ _) ?_
    ext x
    simp only [List.mem_toFinset, specAxis, List.mem_filter, List.mem_range,
      decide_eq_true_eq, mem_pyInterval]
    omega
  have s1 : List.Sorted (· < ·) (specAxis n base bs) :=
    (List.pairwise_lt_range n).filter _
  have s2 : List.Sorted (· < ·) (pyInterval base (min (base + bs) n)) :=
    List.pairwise_lt_range' _ _
  exact List.eq_of_perm_of_sorted hperm s1 s2

/-- C3: in blocked generation, for every outer loop order the trace is the
concatenation, over the tile origins in outer-loop order, of the inner nest,
and the inner nest is the fixed-relative-order enumeration — `i` outermost,
then `j`, then `k` — of the indices of `[0, n)` lying within the tile
`[base, base + tile_size)` for each axis, one event per `(i, j, k)`
combination.  In particular the outer permutation never permutes the inner
nest. -/
theorem claim_C3_inner_nest_fixed_order (n bs i_base j_base k_base : Nat)
    (lo : String) (hlo : lo ∈ GEMMSimulator.LOOP_ORDERS) :
    GEMMSimulator.inner_loops n i_base j_base k_base bs =
      inner_spec n i_base j_base k_base bs ∧
    GEMMSimulator.simulate_blocked n bs lo =
      (outer_origins n bs lo).flatMap fun t =>
        GEMMSimulator.inner_loops n t.1 t.2.1 t.2.2 bs := by
  constructor
  · rw [GEMMSimulator.inner_loops_eq]
    unfold inner_spec
    rw [specAxis_eq_pyInterval, specAxis_eq_pyInterval, specAxis_eq_pyInterval]
  · simp only [GEMMSimulator.LOOP_ORDERS, List.mem_cons, List.not_mem_nil,
      or_false] at hlo
    rcases hlo with rfl | rfl | rfl | rfl | rfl | rfl
    · rw [GEMMSimulator.bl_ijk, oo_ijk]
      simp only [List.flatMap_assoc, List.flatMap_map]
    · rw [GEMMSimulator.bl_ikj, oo_ikj]
      simp only [List.flatMap_assoc, List.flatMap_map]
    · rw [GEMMSimulator.bl_jik, oo_jik]
      simp only [List.flatMap_assoc, List.flatMap_map]
    · rw [GEMMSimulator.bl_jki, oo_jki]
      simp only [List.flatMap_assoc, List.flatMap_map]
    · rw [GEMMSimulator.bl_kij, oo_kij]
      simp only [List.flatMap_assoc, List.flatMap_map]
    · rw [GEMMSimulator.bl_kji, oo_kji]
      simp only [List.flatMap_assoc, List.flatMap_map]

/-- Witness for C3 at `n = 5`, `bs = 3`, tile origin `(3, 0, 3)`, loop order
`"jki"`. -/
theorem claim_C3_witness :
    "jki" ∈ GEMMSimulator.LOOP_ORDERS ∧
    (GEMMSimulator.inner_loops 5 3 0 3 3 = inner_spec 5 3 0 3 3 ∧
     GEMMSimulator.simulate_blocked 5 3 "jki" =
       (outer_origins 5 3 "jki").flatMap fun t =>
         GEMMSimulator.inner_loops 5 t.1 t.2.1 t.2.2 3) :=
  ⟨by decide, claim_C3_inner_nest_fixed_order 5 3 3 0 3 "jki" (by decide)⟩

/-! ### Whole-matrix tile: the default block size collapses blocking -/

theorem pyRange_self {n : Nat} (hn : 1 ≤ n) : pyRange n n = [0] := by
  unfold pyRange
  have h : (n + n - 1) / n = 1 := by
    have := Nat.div_eq_of_lt_le (by omega : 1 * n ≤ n + n - 1)
      (by omega : n + n - 1 < (1 + 1) * n)
    simpa using this
  rw [h, show List.range 1 = [0] from rfl, List.map_cons, List.map_nil,
    Nat.zero_mul]

theorem pyInterval_full (n : Nat) :
    pyInterval 0 (min (0 + n) n) = List.range n := by
  unfold pyInterval
  rw [List.range_eq_range']
  congr 1
  omega

theorem inner_loops_full (n : Nat) :
    GEMMSimulator.inner_loops n 0 0 0 n = GEMMSimulator.simulate_unblocked n "ijk" := by
  rw [GEMMSimulator.inner_loops_eq, GEMMSimulator.ub_ijk, pyInterval_full]

theorem blocked_full_tile (n : Nat) (hn : 1 ≤ n) (lo : String)
    (hlo : lo ∈ GEMMSimulator.LOOP_ORDERS) :
    GEMMSimulator.simulate_blocked n n lo =
      GEMMSimulator.simulate_unblocked n "ijk" := by
  simp only [GEMMSimulator.LOOP_ORDERS, List.mem_cons, List.not_mem_nil,
    or_false] at hlo
  rcases hlo with rfl | rfl | rfl | rfl | rfl | rfl
  · rw [GEMMSimulator.bl_ijk, pyRange_self hn]
    simp [inner_loops_full]
  · rw [GEMMSimulator.bl_ikj, pyRange_self hn]
    simp [inner_loops_full]
  · rw [GEMMSimulator.bl_jik, pyRange_self hn]
    simp [inner_loops_full]
  · rw [GEMMSimulator.bl_jki, pyRange_self hn]
    simp [inner_loops_full]
  · rw [GEMMSimulator.bl_kij, pyRange_self hn]
    simp [inner_loops_full]
  · rw [GEMMSimulator.bl_kji, pyRange_self hn]
    simp [inner_loops_full]

/-- C10: for every `n ≥ 1` and every loop order, a simulator constructed with
`block_size = None` (which defaults to `n`) and run in blocked mode executes
the outer loops exactly once, at tile origin `(0, 0, 0)`, and the resulting
trace is element-for-element identical to the unblocked `"ijk"` trace,
whatever outer permutation was requested. -/
theorem claim_C10_whole_matrix_tile_refines_unblocked (n : Nat) (hn : 1 ≤ n)
    (lo : String) (hlo : lo ∈ GEMMSimulator.LOOP_ORDERS) :
    outer_origins n n lo = [(0, 0, 0)] ∧
    GEMMSimulator.simulate n none lo true =
      Except.ok (GEMMSimulator.simulate_unblocked n "ijk") := by
  constructor
  · have hpr := pyRange_self hn
    simp only [GEMMSimulator.LOOP_ORDERS, List.mem_cons, List.not_mem_nil,
      or_false] at hlo
    rcases hlo with rfl | rfl | rfl | rfl | rfl | rfl
    · rw [oo_ijk, hpr]; rfl
    · rw [oo_ikj, hpr]; rfl
    · rw [oo_jik, hpr]; rfl
    · rw [oo_jki, hpr]; rfl
    · rw [oo_kij, hpr]; rfl
    · rw [oo_kji, hpr]; rfl
  · have hpos : (0 : Int) < (n : Int) := by exact_mod_cast hn
    unfold GEMMSimulator.simulate
    rw [if_pos hlo, if_pos rfl, if_pos hpos]
    rw [Int.toNat_natCast]
    rw [blocked_full_tile n hn lo hlo]

/-! ### Cache simulator: basic step facts -/

namespace CacheSimulator

theorem sample_history_sets (c : CacheSimulator) : (sample_history c).sets = c.sets := by
  unfold sample_history
  split <;> rfl

theorem sample_history_hits (c : CacheSimulator) : (sample_history c).hits = c.hits := by
  unfold sample_history
  split <;> rfl

theorem sample_history_misses (c : CacheSimulator) :
    (sample_history c).misses = c.misses := by
  unfold sample_history
  split <;> rfl

theorem sample_history_accesses (c : CacheSimulator) :
    (sample_history c).accesses = c.accesses := by
  unfold sample_history
  split <;> rfl

theorem sample_history_line_size (c : CacheSimulator) :
    (sample_history c).line_size = c.line_size := by
  unfold sample_history
  split <;> rfl

theorem sample_history_num_sets (c : CacheSimulator) :
    (sample_history c).num_sets = c.num_sets := by
  unfold sample_history
  split <;> rfl

theorem sample_history_associativity (c : CacheSimulator) :
    (sample_history c).associativity = c.associativity := by
  unfold sample_history
  split <;> rfl

theorem sample_history_element_size (c : CacheSimulator) :
    (sample_history c).element_size = c.element_size := by
  unfold sample_history
  split <;> rfl

theorem access_accesses (c : CacheSimulator) (a : Nat) :
    (access c a).1.accesses = c.accesses + 1 := by
  simp only [access]
  split <;> simp [sample_history_accesses]

theorem access_element_size (c : CacheSimulator) (a : Nat) :
    (access c a).1.element_size = c.element_size := by
  simp only [access]
  split <;> simp [sample_history_element_size]

theorem access_line_size (c : CacheSimulator) (a : Nat) :
    (access c a).1.line_size = c.line_size := by
  simp only [access]
  split <;> simp [sample_history_line_size]

theorem access_num_sets (c : CacheSimulator) (a : Nat) :
    (access c a).1.num_sets = c.num_sets := by
  simp only [access]
  split <;> simp [sample_history_num_sets]

theorem access_associativity (c : CacheSimulator) (a : Nat) :
    (access c a).1.associativity = c.associativity := by
  simp only [access]
  split <;> simp [sample_history_associativity]

theorem parse_address_access (c : CacheSimulator) (a x : Nat) :
    parse_address (access c a).1 x = parse_address c x := by
  unfold parse_address
  rw [access_line_size, access_num_sets]

end CacheSimulator

namespace CacheSimulator

theorem access_sets_eq (c : CacheSimulator) (a : Nat) :
    (access c a).1.sets =
      Function.update c.sets (parse_address c a).2.1
        (if (parse_address c a).1 ∈ c.sets (parse_address c a).2.1 then
          (c.sets (parse_address c a).2.1).erase (parse_address c a).1 ++
            [(parse_address c a).1]
         else if c.associativity <
            (c.sets (parse_address c a).2.1 ++ [(parse_address c a).1]).length then
          (c.sets (parse_address c a).2.1 ++ [(parse_address c a).1]).tail
         else c.sets (parse_address c a).2.1 ++ [(parse_address c a).1]) := by
  simp only [access]
  split
  · rw [sample_history_sets]
  · rw [sample_history_sets]

theorem access_hits_eq (c : CacheSimulator) (a : Nat) :
    (access c a).1.hits =
      if (parse_address c a).1 ∈ c.sets (parse_address c a).2.1 then c.hits + 1
      else c.hits := by
  simp only [access]
  split
  · rw [sample_history_hits]
  · rw [sample_history_hits]

theorem access_misses_eq (c : CacheSimulator) (a : Nat) :
    (access c a).1.misses =
      if (parse_address c a).1 ∈ c.sets (parse_address c a).2.1 then c.misses
      else c.misses + 1 := by
  simp only [access]
  split
  · rw [sample_history_misses]
  · rw [sample_history_misses]

theorem access_flag_eq (c : CacheSimulator) (a : Nat) :
    (access c a).2 =
      decide ((parse_address c a).1 ∈ c.sets (parse_address c a).2.1) := by
  simp only [access]
  split
  · rename_i h
    simp [h]
  · rename_i h
    simp [h]

theorem access_capacity (c : CacheSimulator) (a : Nat)
    (h : ∀ i, (c.sets i).length ≤ c.associativity) (i : Nat) :
    ((access c a).1.sets i).length ≤ c.associativity := by
  rw [access_sets_eq]
  rcases eq_or_ne i (parse_address c a).2.1 with rfl | hne
  · rw [Function.update_same]
    split
    · rename_i hm
      rw [List.length_append, List.length_erase_of_mem hm]
      have h1 := h (parse_address c a).2.1
      have h2 : 0 < (c.sets (parse_address c a).2.1).length :=
        List.length_pos_of_mem hm
      simp only [List.length_cons, List.length_nil]
      omega
    · split
      · rename_i hlt
        have h1 := h (parse_address c a).2.1
        simp only [List.length_tail, List.length_append, List.length_cons,
          List.length_nil]
        omega
      · rename_i hle
        rw [List.length_append] at hle ⊢
        have h1 := h (parse_address c a).2.1
        simp only [List.length_cons, List.length_nil] at hle ⊢
        omega
  · rw [Function.update_noteq hne]
    exact h i

theorem access_st_associativity (c : CacheSimulator) (a : Nat) :
    (access_st c a).associativity = c.associativity :=
  access_associativity c a

theorem access_st_element_size (c : CacheSimulator) (a : Nat) :
    (access_st c a).element_size = c.element_size :=
  access_element_size c a

theorem foldl_access_st_capacity (l : List Nat) (c : CacheSimulator)
    (h : ∀ i, (c.sets i).length ≤ c.associativity) (i : Nat) :
    ((l.foldl access_st c).sets i).length ≤ c.associativity := by
  induction l generalizing c with
  | nil => exact h i
  | cons a as ih =>
    rw [List.foldl_cons]
    have h2 : ∀ j, ((access_st c a).sets j).length ≤ (access_st c a).associativity := by
      intro j
      rw [access_st_associativity]
      exact access_capacity c a h j
    have h3 := ih (access_st c a) h2
    rwa [access_st_associativity] at h3

theorem foldl_access_st_accesses (l : List Nat) (c : CacheSimulator) :
    (l.foldl access_st c).accesses = c.accesses + l.length := by
  induction l generalizing c with
  | nil => rfl
  | cons a as ih =>
    rw [List.foldl_cons, ih]
    unfold access_st
    rw [access_accesses, List.length_cons]
    omega

end CacheSimulator

/-- C5: after any finite sequence of `access` calls on a freshly constructed
`CacheSimulator`, every cache set holds at most `associativity` tags; and on a
miss into a full set exactly one tag — the least-recently-used, at the front of
the recency list — is evicted, the new tag entering at the most-recently-used
end. -/
theorem claim_C5_capacity_invariant (cs ls assoc es : Nat) (c0 : CacheSimulator)
    (hinit : CacheSimulator.init cs ls assoc es = Except.ok c0)
    (addrs : List Nat) :
    (∀ i, ((addrs.foldl CacheSimulator.access_st c0).sets i).length ≤ assoc) ∧
    (∀ (c : CacheSimulator) (a : Nat), 1 ≤ c.associativity →
      (CacheSimulator.parse_address c a).1 ∉
        c.sets (CacheSimulator.parse_address c a).2.1 →
      (c.sets (CacheSimulator.parse_address c a).2.1).length = c.associativity →
      (CacheSimulator.access c a).1.sets (CacheSimulator.parse_address c a).2.1 =
        (c.sets (CacheSimulator.parse_address c a).2.1).tail ++
          [(CacheSimulator.parse_address c a).1]) := by
  constructor
  · unfold CacheSimulator.init at hinit
    split at hinit
    · exact absurd hinit (by simp)
    · split at hinit
      · exact absurd hinit (by simp)
      · rw [Except.ok.injEq] at hinit
        subst hinit
        intro i
        exact CacheSimulator.foldl_access_st_capacity addrs _
          (fun _ => by simp) i
  · intro c a hassoc hmem hlen
    rw [CacheSimulator.access_sets_eq, Function.update_same, if_neg hmem,
      if_pos (by rw [List.length_append, hlen]; simp)]
    have hne : c.sets (CacheSimulator.parse_address c a).2.1 ≠ [] := by
      intro h0
      rw [h0] at hlen
      simp at hlen
      omega
    obtain ⟨hd, tl, hcons⟩ := List.exists_cons_of_ne_nil hne
    rw [hcons]
    rfl

/-- Witness for C5: a 2-way cache of 4 lines (2 sets) built by `init`, run on
two addresses. -/
theorem claim_C5_witness :
    CacheSimulator.init 256 64 2 8 = Except.ok
      { cache_size := 256, line_size := 64, associativity := 2,
        element_size := 8, num_lines := 4, num_sets := 2,
        sets := fun _ => [], hits := 0, misses := 0, accesses := 0,
        hit_rate_history := [] } ∧
    ((∀ i, (([0, 64].foldl CacheSimulator.access_st
        { cache_size := 256, line_size := 64, associativity := 2,
          element_size := 8, num_lines := 4, num_sets := 2,
          sets := fun _ => [], hits := 0, misses := 0, accesses := 0,
          hit_rate_history := [] }).sets i).length ≤ 2) ∧
     (∀ (c : CacheSimulator) (a : Nat), 1 ≤ c.associativity →
       (CacheSimulator.parse_address c a).1 ∉
         c.sets (CacheSimulator.parse_address c a).2.1 →
       (c.sets (CacheSimulator.parse_address c a).2.1).length = c.associativity →
       (CacheSimulator.access c a).1.sets (CacheSimulator.parse_address c a).2.1 =
         (c.sets (CacheSimulator.parse_address c a).2.1).tail ++
           [(CacheSimulator.parse_address c a).1])) :=
  ⟨rfl, claim_C5_capacity_invariant 256 64 2 8 _ rfl [0, 64]⟩

/-! ### Replaying a trace performs four ordered accesses per event -/

theorem length_expandedAddresses (es : Nat) (mb : CacheSimulator.MatrixBases)
    (n : Nat) (tracks : List AccessEvent) :
    (expandedAddresses es mb n tracks).length = 4 * tracks.length := by
  induction tracks with
  | nil => rfl
  | cons e t ih =>
    unfold expandedAddresses at ih ⊢
    rw [List.flatMap_cons, List.length_append, ih, List.length_cons]
    simp only [List.length_cons, List.length_nil]
    omega

theorem foldl_events_eq (mb : CacheSimulator.MatrixBases) (n : Nat)
    (tracks : List AccessEvent) :
    ∀ st : CacheSimulator,
      tracks.foldl (fun st e =>
        let st1 := CacheSimulator.access_st st
          (CacheSimulator.get_address st.element_size mb.A e.a_pos.1 e.a_pos.2 n)
        let st2 := CacheSimulator.access_st st1
          (CacheSimulator.get_address st1.element_size mb.B e.b_pos.1 e.b_pos.2 n)
        let st3 := CacheSimulator.access_st st2
          (CacheSimulator.get_address st2.element_size mb.C e.c_pos.1 e.c_pos.2 n)
        CacheSimulator.access_st st3
          (CacheSimulator.get_address st3.element_size mb.C e.c_pos.1 e.c_pos.2 n)) st
      = (expandedAddresses st.element_size mb n tracks).foldl
          CacheSimulator.access_st st := by
  induction tracks with
  | nil => intro st; rfl
  | cons e t ih =>
    intro st
    rw [List.foldl_cons]
    unfold expandedAddresses
    rw [List.flatMap_cons, List.foldl_append]
    have h := ih (CacheSimulator.access_st
      (CacheSimulator.access_st
        (CacheSimulator.access_st
          (CacheSimulator.access_st st
            (CacheSimulator.get_address st.element_size mb.A e.a_pos.1 e.a_pos.2 n))
          (CacheSimulator.get_address st.element_size mb.B e.b_pos.1 e.b_pos.2 n))
        (CacheSimulator.get_address st.element_size mb.C e.c_pos.1 e.c_pos.2 n))
      (CacheSimulator.get_address st.element_size mb.C e.c_pos.1 e.c_pos.2 n))
    simp only [CacheSimulator.access_st_element_size] at h ⊢
    unfold expandedAddresses at h
    rw [h]
    rfl

/-- C4: `simulate_accesses` first resets all cache state and counters, then for
every `AccessEvent` in the trace, in trace order, performs exactly four
single-address accesses in the fixed order A-read, B-read, C-access, C-access,
each address computed as `base + (row * n + col) * element_size`; consequently
`total_accesses` in the returned statistics equals `4 *` the trace length. -/
theorem claim_C4_four_accesses_per_event (c : CacheSimulator)
    (tracks : List AccessEvent) (n : Nat)
    (mb : Option CacheSimulator.MatrixBases)
    (hls : 1 ≤ c.line_size) (hns : 1 ≤ c.num_sets) :
    CacheSimulator.simulate_accesses c tracks n mb =
      (expandedAddresses c.element_size (mb.getD CacheSimulator.default_bases) n
        tracks).foldl CacheSimulator.access_st (CacheSimulator.reset c) ∧
    (CacheSimulator.get_statistics
      (CacheSimulator.simulate_accesses c tracks n mb)).total_accesses =
      4 * tracks.length := by
  have h1 : CacheSimulator.simulate_accesses c tracks n mb =
      (expandedAddresses c.element_size (mb.getD CacheSimulator.default_bases) n
        tracks).foldl CacheSimulator.access_st (CacheSimulator.reset c) := by
    unfold CacheSimulator.simulate_accesses
    cases mb with
    | none =>
      have h := foldl_events_eq CacheSimulator.default_bases n tracks
        (CacheSimulator.reset c)
      exact h
    | some b =>
      have h := foldl_events_eq b n tracks (CacheSimulator.reset c)
      exact h
  refine ⟨h1, ?_⟩
  have h2 : (CacheSimulator.get_statistics
      (CacheSimulator.simulate_accesses c tracks n mb)).total_accesses =
      (CacheSimulator.simulate_accesses c tracks n mb).accesses := rfl
  rw [h2, h1, CacheSimulator.foldl_access_st_accesses,
    length_expandedAddresses]
  simp [CacheSimulator.reset]

/-- Witness for C4: a direct-mapped 4-line cache replaying a one-event trace. -/
theorem claim_C4_witness :
    1 ≤ (64 : Nat) ∧ 1 ≤ (4 : Nat) ∧
    (CacheSimulator.get_statistics
      (CacheSimulator.simulate_accesses
        { cache_size := 256, line_size := 64, associativity := 1,
          element_size := 8, num_lines := 4, num_sets := 4,
          sets := fun _ => [], hits := 0, misses := 0, accesses := 0,
          hit_rate_history := [] }
        [GEMMSimulator.record_access 0 0 0] 2 none)).total_accesses =
      4 * [GEMMSimulator.record_access 0 0 0].length :=
  ⟨by decide, by decide,
    (claim_C4_four_accesses_per_event _ [GEMMSimulator.record_access 0 0 0] 2
      none (by decide) (by decide)).2⟩


namespace CacheSimulator

theorem parse_address_access_st (c : CacheSimulator) (a x : Nat) :
    parse_address (access_st c a) x = parse_address c x :=
  parse_address_access c a x

theorem access_st_miss (c : CacheSimulator) (a : Nat)
    (h : (parse_address c a).1 ∉ c.sets (parse_address c a).2.1) :
    (access_st c a).sets (parse_address c a).2.1 =
      (if c.associativity <
          (c.sets (parse_address c a).2.1 ++ [(parse_address c a).1]).length
       then (c.sets (parse_address c a).2.1 ++ [(parse_address c a).1]).tail
       else c.sets (parse_address c a).2.1 ++ [(parse_address c a).1]) ∧
    (access_st c a).hits = c.hits ∧
    (access_st c a).misses = c.misses + 1 ∧
    (access c a).2 = false := by
  refine ⟨?_, ?_, ?_, ?_⟩
  · unfold access_st
    rw [access_sets_eq, Function.update_same, if_neg h]
  · unfold access_st
    rw [access_hits_eq, if_neg h]
  · unfold access_st
    rw [access_misses_eq, if_neg h]
  · rw [access_flag_eq]
    simp [h]

theorem access_st_hit (c : CacheSimulator) (a : Nat)
    (h : (parse_address c a).1 ∈ c.sets (parse_address c a).2.1) :
    (access_st c a).sets (parse_address c a).2.1 =
      (c.sets (parse_address c a).2.1).erase (parse_address c a).1 ++
        [(parse_address c a).1] ∧
    (access_st c a).hits = c.hits + 1 ∧
    (access_st c a).misses = c.misses ∧
    (access c a).2 = true := by
  refine ⟨?_, ?_, ?_, ?_⟩
  · unfold access_st
    rw [access_sets_eq, Function.update_same, if_pos h]
  · unfold access_st
    rw [access_hits_eq, if_pos h]
  · unfold access_st
    rw [access_misses_eq, if_pos h]
  · rw [access_flag_eq]
    simp [h]

end CacheSimulator

open CacheSimulator in
theorem claim_C6_lru_eviction (c : CacheSimulator) (a1 a2 a3 : Nat)
    (hassoc : c.associativity = 2)
    (hs2 : (parse_address c a2).2.1 = (parse_address c a1).2.1)
    (hs3 : (parse_address c a3).2.1 = (parse_address c a1).2.1)
    (ht12 : (parse_address c a1).1 ≠ (parse_address c a2).1)
    (ht13 : (parse_address c a1).1 ≠ (parse_address c a3).1)
    (ht23 : (parse_address c a2).1 ≠ (parse_address c a3).1)
    (hempty : c.sets (parse_address c a1).2.1 = []) :
    ([a1, a2, a1, a3].foldl access_st c).hits = c.hits + 1 ∧
    ([a1, a2, a1, a3].foldl access_st c).misses = c.misses + 3 ∧
    ([a1, a2, a1, a3].foldl access_st c).sets (parse_address c a1).2.1 =
      [(parse_address c a1).1, (parse_address c a3).1] ∧
    access_flags c [a1, a2, a1, a3] = [false, false, true, false] := by
  have hfold : [a1, a2, a1, a3].foldl access_st c =
      access_st (access_st (access_st (access_st c a1) a2) a1) a3 := rfl
  -- step 1: miss on a1
  have m1 := access_st_miss c a1 (by rw [hempty]; simp)
  have s1 : (access_st c a1).sets (parse_address c a1).2.1 =
      [(parse_address c a1).1] := by
    rw [m1.1, hempty, if_neg (by simp [hassoc])]
    rfl
  have hp1 : ∀ x, parse_address (access_st c a1) x = parse_address c x :=
    parse_address_access_st c a1
  have ha1 : (access_st c a1).associativity = 2 := by
    rw [access_st_associativity, hassoc]
  -- step 2: miss on a2
  have h2mem : (parse_address (access_st c a1) a2).1 ∉
      (access_st c a1).sets (parse_address (access_st c a1) a2).2.1 := by
    rw [hp1 a2, hs2, s1]
    simp [Ne.symm ht12]
  have m2 := access_st_miss (access_st c a1) a2 h2mem
  have s2 : (access_st (access_st c a1) a2).sets (parse_address c a1).2.1 =
      [(parse_address c a1).1, (parse_address c a2).1] := by
    have h := m2.1
    rw [hp1 a2, hs2, s1] at h
    rw [h, if_neg (by simp [ha1])]
    rfl
  have hp2 : ∀ x, parse_address (access_st (access_st c a1) a2) x =
      parse_address c x :=
    fun x => (parse_address_access_st (access_st c a1) a2 x).trans (hp1 x)
  have ha2 : (access_st (access_st c a1) a2).associativity = 2 := by
    rw [access_st_associativity, ha1]
  -- step 3: hit on a1
  have h3mem : (parse_address (access_st (access_st c a1) a2) a1).1 ∈
      (access_st (access_st c a1) a2).sets
        (parse_address (access_st (access_st c a1) a2) a1).2.1 := by
    rw [hp2 a1, s2]
    simp
  have m3 := access_st_hit (access_st (access_st c a1) a2) a1 h3mem
  have s3 : (access_st (access_st (access_st c a1) a2) a1).sets
      (parse_address c a1).2.1 =
      [(parse_address c a2).1, (parse_address c a1).1] := by
    have h := m3.1
    rw [hp2 a1, s2] at h
    rw [h]
    simp [List.erase_cons]
  have hp3 : ∀ x, parse_address (access_st (access_st (access_st c a1) a2) a1) x
      = parse_address c x :=
    fun x => (parse_address_access_st (access_st (access_st c a1) a2) a1 x).trans
      (hp2 x)
  have ha3 : (access_st (access_st (access_st c a1) a2) a1).associativity = 2 := by
    rw [access_st_associativity, ha2]
  -- step 4: miss on a3, evicting the least-recently-used tag of a2
  have h4mem : (parse_address (access_st (access_st (access_st c a1) a2) a1) a3).1 ∉
      (access_st (access_st (access_st c a1) a2) a1).sets
        (parse_address (access_st (access_st (access_st c a1) a2) a1) a3).2.1 := by
    rw [hp3 a3, hs3, s3]
    simp [Ne.symm ht13, Ne.symm ht23]
  have m4 := access_st_miss (access_st (access_st (access_st c a1) a2) a1) a3 h4mem
  have s4 : (access_st (access_st (access_st (access_st c a1) a2) a1) a3).sets
      (parse_address c a1).2.1 =
      [(parse_address c a1).1, (parse_address c a3).1] := by
    have h := m4.1
    rw [hp3 a3, hs3, s3] at h
    rw [h, if_pos (by simp [ha3])]
    rfl
  have hflags : access_flags c [a1, a2, a1, a3] =
      [(access c a1).2, (access (access_st c a1) a2).2,
       (access (access_st (access_st c a1) a2) a1).2,
       (access (access_st (access_st (access_st c a1) a2) a1) a3).2] := rfl
  refine ⟨?_, ?_, ?_, ?_⟩
  · rw [hfold, m4.2.1, m3.2.1, m2.2.1, m1.2.1]
  · rw [hfold, m4.2.2.1, m3.2.2.1, m2.2.2.1, m1.2.2.1]
  · rw [hfold, s4]
  · rw [hflags, m1.2.2.2, m2.2.2.2, m3.2.2.2, m4.2.2.2]

/-- Witness for C6: tags 0, 1, 2 of addresses 0, 256, 512 all map to set 0 of
a 2-way cache; the access order [0, 256, 0, 512] yields one hit and leaves
tags 0 and 2 resident. -/
theorem claim_C6_witness :
    lruTestCache.associativity = 2 ∧
    (CacheSimulator.parse_address lruTestCache 256).2.1 =
      (CacheSimulator.parse_address lruTestCache 0).2.1 ∧
    (CacheSimulator.parse_address lruTestCache 512).2.1 =
      (CacheSimulator.parse_address lruTestCache 0).2.1 ∧
    (CacheSimulator.parse_address lruTestCache 0).1 ≠
      (CacheSimulator.parse_address lruTestCache 256).1 ∧
    (CacheSimulator.parse_address lruTestCache 0).1 ≠
      (CacheSimulator.parse_address lruTestCache 512).1 ∧
    (CacheSimulator.parse_address lruTestCache 256).1 ≠
      (CacheSimulator.parse_address lruTestCache 512).1 ∧
    lruTestCache.sets (CacheSimulator.parse_address lruTestCache 0).2.1 = [] ∧
    (([0, 256, 0, 512].foldl CacheSimulator.access_st lruTestCache).hits =
        lruTestCache.hits + 1 ∧
     ([0, 256, 0, 512].foldl CacheSimulator.access_st lruTestCache).misses =
        lruTestCache.misses + 3 ∧
     ([0, 256, 0, 512].foldl CacheSimulator.access_st lruTestCache).sets
         (CacheSimulator.parse_address lruTestCache 0).2.1 =
       [(CacheSimulator.parse_address lruTestCache 0).1,
        (CacheSimulator.parse_address lruTestCache 512).1] ∧
     CacheSimulator.access_flags lruTestCache [0, 256, 0, 512] =
       [false, false, true, false]) :=
  ⟨rfl, rfl, rfl, by decide, by decide, by decide, rfl,
    claim_C6_lru_eviction lruTestCache 0 256 512 rfl rfl rfl (by decide)
      (by decide) (by decide) rfl⟩

/-- C7 counterexample: the claim asserts `simulate` fails whenever
`blocked = true` and the tile size exceeds `n`; in fact `simulate` with
`n = 2`, `block_size = 5 > n`, `blocked = true` succeeds and returns a trace. -/
theorem claim_C7_counterexample :
    (GEMMSimulator.simulate 2 (some 5) "ijk" true).isOk = true := rfl

/-- C7 (amended): for `n ≥ 1` the trace generator's entry point fails exactly
when `loop_order` is not one of the six recognized permutations; `tile_size`
is never validated — `None` and `0` silently default to `n`, and any other
value (negative or greater than `n`) is silently accepted. -/
theorem claim_C7_only_loop_order_validated (n : Nat) (hn : 1 ≤ n)
    (bsz : Option Int) (lo : String) (b : Bool) :
    (GEMMSimulator.simulate n bsz lo b).isOk = true ↔
      lo ∈ GEMMSimulator.LOOP_ORDERS := by
  have hpos : (0 : Int) < (n : Int) := by exact_mod_cast hn
  have hok : ∀ x : List AccessEvent,
      (Except.ok x : Except String (List AccessEvent)).isOk = true :=
    fun _ => rfl
  have herr : ∀ s : String,
      (Except.error s : Except String (List AccessEvent)).isOk = false :=
    fun _ => rfl
  unfold GEMMSimulator.simulate
  by_cases hlo : lo ∈ GEMMSimulator.LOOP_ORDERS
  · rw [if_pos hlo]
    simp only [hlo, iff_true]
    cases b with
    | false => exact hok _
    | true =>
      cases bsz with
      | none =>
        rw [if_pos rfl, if_pos hpos]
        exact hok _
      | some v =>
        rw [if_pos rfl]
        dsimp only
        by_cases hv : v = 0
        · rw [if_pos hv, if_pos hpos]
          exact hok _
        · rw [if_neg hv]
          by_cases hvpos : 0 < v
          · rw [if_pos hvpos]
            exact hok _
          · rw [if_neg hvpos, if_neg hv]
            exact hok _
  · rw [if_neg hlo]
    rw [herr]
    simp [hlo]

/-- Witness for C7 at `n = 2`, `tile_size = 5 > n`, loop order `"ijk"`,
blocked mode. -/
theorem claim_C7_witness :
    1 ≤ 2 ∧
    ((GEMMSimulator.simulate 2 (some 5) "ijk" true).isOk = true ↔
      "ijk" ∈ GEMMSimulator.LOOP_ORDERS) :=
  ⟨by decide, claim_C7_only_loop_order_validated 2 (by decide) (some 5) "ijk" true⟩

/-- C8 counterexample: the claim asserts construction fails when `line_size`
does not evenly divide `cache_size` (and when `associativity` does not divide
the line count); in fact `CacheSimulator(100, 64, 8, 8)` constructs
successfully, silently floor-dividing the geometry. -/
theorem claim_C8_counterexample :
    (CacheSimulator.init 100 64 8 8).isOk = true := rfl

/-- C8 (amended): `CacheSimulator.__init__` performs no geometry validation at
all.  Construction succeeds for every choice of parameters except
`line_size = 0` or `associativity = 0`, which raise `ZeroDivisionError` in the
derived floor divisions; divisibility of `cache_size` by `line_size`, and of
the line count by `associativity`, is never checked and invalid geometry is
silently floor-divided, not reported. -/
theorem claim_C8_no_construction_validation
    (cache_size line_size associativity element_size : Nat) :
    (CacheSimulator.init cache_size line_size associativity
      element_size).isOk = true ↔ (line_size ≠ 0 ∧ associativity ≠ 0) := by
  have hok : ∀ x : CacheSimulator,
      (Except.ok x : Except String CacheSimulator).isOk = true :=
    fun _ => rfl
  have herr : ∀ s : String,
      (Except.error s : Except String CacheSimulator).isOk = false :=
    fun _ => rfl
  unfold CacheSimulator.init
  by_cases h1 : line_size = 0
  · rw [if_pos h1, herr]
    simp [h1]
  · by_cases h2 : associativity = 0
    · rw [if_neg h1, if_pos h2, herr]
      simp [h1, h2]
    · rw [if_neg h1, if_neg h2, hok]
      simp [h1, h2]

/-- C9 counterexample: the claim asserts out-of-range coordinates are
detectable via a bounds check raising an `OutOfRange` error rather than
silently aliasing; in fact `_get_address` has no bounds check, and the
out-of-range coordinate `(0, 4)` of a `4 × 4` matrix yields exactly the same
byte address as the in-range element `(1, 0)`. -/
theorem claim_C9_counterexample :
    CacheSimulator.get_address 8 65536 0 4 4 =
      CacheSimulator.get_address 8 65536 1 0 4 := rfl

/-- C9 (amended): `_get_address` performs no bounds check: every coordinate
pair, in range or not, is mapped through the affine row-major formula, so the
out-of-range coordinate `(row, col + n)` silently aliases the address of
`(row + 1, col)` for every matrix base and element size. -/
theorem claim_C9_silent_aliasing (element_size matrix_base row col n : Nat) :
    CacheSimulator.get_address element_size matrix_base row (col + n) n =
      CacheSimulator.get_address element_size matrix_base (row + 1) col n := by
  unfold CacheSimulator.get_address
  ring

/-- Witness for C10 at `n = 2`, loop order `"kji"`. -/
theorem claim_C10_witness :
    1 ≤ 2 ∧ "kji" ∈ GEMMSimulator.LOOP_ORDERS ∧
    (outer_origins 2 2 "kji" = [(0, 0, 0)] ∧
     GEMMSimulator.simulate 2 none "kji" true =
       Except.ok (GEMMSimulator.simulate_unblocked 2 "ijk")) :=
  ⟨by decide, by decide,
    claim_C10_whole_matrix_tile_refines_unblocked 2 (by decide) "kji" (by decide)⟩
